import Mathlib

/-!
Verification of the sonora dictation-pipeline domain layer.

The TypeScript domain modules are shallowly embedded:
JavaScript numbers are modelled as rationals (all values appearing in the
claims are exactly representable), arrays as lists, and the TS union types
as inductive types with the source constructor names.
-/

/-! ## Dictation state machine (src/domain/dictation-machine.ts) -/

inductive DictationMode
  | push_to_toggle
  | push_to_talk
deriving DecidableEq, Fintype

inductive DictationState
  | idle
  | listening
  | transcribing
  | inserting
deriving DecidableEq, Fintype

inductive DictationEvent
  | hotkey_down
  | hotkey_up
  | speech_segment_ready
  | transcription_complete
  | insertion_complete
  | cancel
deriving DecidableEq, Fintype

open DictationMode DictationState DictationEvent

/-- Embedding of `transitionState`, following the source switch statement
branch by branch. -/
def transitionState (state : DictationState) (mode : DictationMode)
    (event : DictationEvent) : DictationState :=
  match state with
  | idle =>
      if event = hotkey_down then listening else state
  | listening =>
      if event = speech_segment_ready then transcribing
      else if event = cancel then idle
      else if mode = push_to_talk ∧ event = hotkey_up then idle
      else if mode = push_to_toggle ∧ event = hotkey_down then idle
      else state
  | transcribing =>
      if event = cancel then idle
      else if event = transcription_complete then inserting
      else state
  | inserting =>
      if event = cancel then idle
      else if event = insertion_complete then idle
      else state

/-- The transition table of spec section 4.1, written from the spec rows
(not from the code): `some s2` when the row (state, event) is listed,
taking the mode-conditioned hotkey rows into account, `none` otherwise. -/
def listedTransition (state : DictationState) (mode : DictationMode)
    (event : DictationEvent) : Option DictationState :=
  match state, mode, event with
  | idle, _, hotkey_down => some listening
  | listening, _, speech_segment_ready => some transcribing
  | listening, _, cancel => some idle
  | listening, push_to_toggle, hotkey_down => some idle
  | listening, push_to_talk, hotkey_up => some idle
  | transcribing, _, transcription_complete => some inserting
  | transcribing, _, cancel => some idle
  | inserting, _, insertion_complete => some idle
  | inserting, _, cancel => some idle
  | _, _, _ => none

/-- C1: the transition function is total, every pair (state, event) without
a listed row in the section 4.1 table is a no-op, and every listed row is
realized exactly as the table states. -/
theorem transition_unlisted_noop (s : DictationState) (m : DictationMode)
    (e : DictationEvent) :
    (listedTransition s m e = none → transitionState s m e = s) ∧
    (∀ s2 : DictationState,
      listedTransition s m e = some s2 → transitionState s m e = s2) := by
  revert s m e
  decide

/-- Witness for C1: (idle, hotkey_up) is unlisted and is a no-op. -/
theorem transition_unlisted_noop_witness :
    transitionState idle push_to_talk hotkey_up = idle :=
  (transition_unlisted_noop idle push_to_talk hotkey_up).1 rfl

/-- C2: cancel from any non-idle state returns to idle, in every mode. -/
theorem transition_cancel_idle (s : DictationState) (m : DictationMode)
    (h : s ≠ idle) : transitionState s m cancel = idle := by
  revert h
  revert s m
  decide

/-- Witness for C2: cancelling from listening in toggle mode yields idle. -/
theorem transition_cancel_idle_witness :
    transitionState listening push_to_toggle cancel = idle :=
  transition_cancel_idle listening push_to_toggle (by decide)

/-- C3: the forward dictation path holds in every mode, and composing the
transitions from listening visits transcribing, inserting, idle in order
with no skipped state. -/
theorem transition_forward_path (m : DictationMode) :
    transitionState idle m hotkey_down = listening ∧
    transitionState listening m speech_segment_ready = transcribing ∧
    transitionState transcribing m transcription_complete = inserting ∧
    transitionState inserting m insertion_complete = idle ∧
    transitionState (transitionState listening m speech_segment_ready) m
      transcription_complete = inserting ∧
    transitionState
      (transitionState (transitionState listening m speech_segment_ready) m
        transcription_complete) m insertion_complete = idle := by
  revert m
  decide

/-- C8: the mode changes only how hotkey edges are interpreted: for every
non-hotkey event the two modes transition identically. -/
theorem transition_mode_only_hotkeys (s : DictationState) (e : DictationEvent)
    (h1 : e ≠ hotkey_down) (h2 : e ≠ hotkey_up) :
    transitionState s push_to_toggle e = transitionState s push_to_talk e := by
  revert h1 h2
  revert s e
  decide

/-- Witness for C8: cancel behaves identically in the two modes. -/
theorem transition_mode_only_hotkeys_witness :
    transitionState listening push_to_toggle cancel =
      transitionState listening push_to_talk cancel :=
  transition_mode_only_hotkeys listening cancel (by decide) (by decide)

/-! ## Audio resampler (src/domain/audio-resample.ts)

The source iterates `index` from 0 to `outputLength`, carrying `position`;
each step computes `nextPosition = min(floor((index+1)*ratio), input.length)`,
averages `input[position..nextPosition)` (emitting 0 when that window is
empty), and advances `position` to `nextPosition`.  `dsGo` is that loop with
the remaining iteration count as the recursion fuel; all quantities under
`Math.floor` are nonnegative here, so `Nat.floor` models it. -/

def dsGo (input : List ℚ) (q : ℚ) : ℕ → ℕ → ℕ → List ℚ
  | 0, _, _ => []
  | fuel + 1, index, position =>
      let nextPosition := min ⌊((index : ℚ) + 1) * q⌋₊ input.length
      let count := nextPosition - position
      (if 0 < count then ((input.drop position).take count).sum / (count : ℚ)
       else 0) :: dsGo input q fuel (index + 1) nextPosition

/-- Embedding of `downsampleTo16k`; `q` stands for the source ratio
`sourceSampleRate / 16000`. -/
def downsampleTo16k (input : List ℚ) (sourceSampleRate : ℚ) : List ℚ :=
  if sourceSampleRate = 16000 then input
  else if sourceSampleRate < 16000 then []
  else
    dsGo input (sourceSampleRate / 16000)
      ⌊(input.length : ℚ) / (sourceSampleRate / 16000)⌋₊ 0 0

/-- The value of the loop's `position` variable at the start of iteration
`i` (the loop starts at 0 and writes `min(floor((i)*q), len)` thereafter). -/
def posF (len : ℕ) (q : ℚ) : ℕ → ℕ
  | 0 => 0
  | i + 1 => min ⌊((i : ℚ) + 1) * q⌋₊ len

/-- The element the loop emits at index `i`. -/
def dsStep (input : List ℚ) (q : ℚ) (i : ℕ) : ℚ :=
  if 0 < posF input.length q (i + 1) - posF input.length q i then
    ((input.drop (posF input.length q i)).take
        (posF input.length q (i + 1) - posF input.length q i)).sum /
      ((posF input.length q (i + 1) - posF input.length q i : ℕ) : ℚ)
  else 0

theorem dsGo_length (input : List ℚ) (q : ℚ) :
    ∀ fuel index position, (dsGo input q fuel index position).length = fuel := by
  intro fuel
  induction fuel with
  | zero => intro index position; simp [dsGo]
  | succ n ih => intro index position; simp [dsGo, ih]

theorem posF_zero (len : ℕ) (q : ℚ) : posF len q 0 = 0 := rfl

theorem posF_eq_min (len : ℕ) (q : ℚ) (i : ℕ) :
    posF len q i = min ⌊(i : ℚ) * q⌋₊ len := by
  cases i with
  | zero => simp [posF]
  | succ m => simp [posF]

theorem dsGo_getElem (input : List ℚ) (q : ℚ) :
    ∀ fuel index j, j < fuel →
      (dsGo input q fuel index (posF input.length q index))[j]? =
        some (dsStep input q (index + j)) := by
  intro fuel
  induction fuel with
  | zero => intro index j hj; omega
  | succ n ih =>
      intro index j hj
      cases j with
      | zero =>
          simp only [dsGo, dsStep, posF, List.getElem?_cons_zero, Nat.add_zero]
      | succ m =>
          have step : (dsGo input q (n + 1) index (posF input.length q index)) =
              (if 0 < posF input.length q (index + 1) - posF input.length q index
               then ((input.drop (posF input.length q index)).take
                  (posF input.length q (index + 1) - posF input.length q index)).sum /
                  ((posF input.length q (index + 1) - posF input.length q index : ℕ) : ℚ)
               else 0) :: dsGo input q n (index + 1) (posF input.length q (index + 1)) := by
            simp only [dsGo, posF]
          rw [step, List.getElem?_cons_succ]
          have hidx : index + (m + 1) = index + 1 + m := by omega
          rw [hidx]
          exact ih (index + 1) m (by omega)

/-- C6: resampling at exactly 16 kHz is the identity on sample values. -/
theorem downsample_identity_at_16k (input : List ℚ) :
    downsampleTo16k input 16000 = input := by
  simp [downsampleTo16k]

/-- C7: resampling below 16 kHz always returns the empty sequence. -/
theorem downsample_below_16k_empty (input : List ℚ) (rate : ℚ)
    (h : rate < 16000) : downsampleTo16k input rate = [] := by
  unfold downsampleTo16k
  rw [if_neg (ne_of_lt h), if_pos h]

/-- Witness for C7. -/
theorem downsample_below_16k_empty_witness :
    downsampleTo16k [1, 2, 3] 8000 = [] :=
  downsample_below_16k_empty [1, 2, 3] 8000 (by norm_num)

theorem posF_lt (len : ℕ) (q : ℚ) (hq : 1 < q) (i : ℕ)
    (hi : i < ⌊(len : ℚ) / q⌋₊) :
    posF len q i < posF len q (i + 1) := by
  have hq0 : 0 < q := lt_trans one_pos hq
  have h1 : ((i : ℚ) + 1) ≤ (len : ℚ) / q := by
    have hle : (i + 1 : ℕ) ≤ ⌊(len : ℚ) / q⌋₊ := hi
    have := (Nat.le_floor_iff (by positivity)).mp hle
    push_cast at this
    linarith
  have hmul : ((i : ℚ) + 1) * q ≤ (len : ℚ) := by
    rw [← le_div_iff₀ hq0]
    exact h1
  have hlt : (i : ℚ) * q < (len : ℚ) := by nlinarith
  have ha_lt_len : ⌊(i : ℚ) * q⌋₊ < len := by
    rw [Nat.floor_lt (by positivity)]
    exact hlt
  have hfl : ⌊(i : ℚ) * q⌋₊ + 1 ≤ ⌊((i : ℚ) + 1) * q⌋₊ := by
    have h3 : (i : ℚ) * q + 1 ≤ ((i : ℚ) + 1) * q := by nlinarith
    calc ⌊(i : ℚ) * q⌋₊ + 1 = ⌊(i : ℚ) * q + 1⌋₊ :=
          (Nat.floor_add_one (by positivity)).symm
      _ ≤ ⌊((i : ℚ) + 1) * q⌋₊ := Nat.floor_le_floor h3
  rw [posF_eq_min, posF_eq_min]
  push_cast
  omega

/-- C9: for every rate above 16 kHz and every index below the output
length, the averaging window `[position, nextPosition)` is non-empty, and
the emitted element really is the division `sum / count` (the `count = 0`
fallback branch that would emit 0 is never selected). -/
theorem downsample_window_nonempty (input : List ℚ) (rate : ℚ)
    (h : 16000 < rate) (i : ℕ)
    (hi : i < ⌊(input.length : ℚ) / (rate / 16000)⌋₊) :
    posF input.length (rate / 16000) i <
      posF input.length (rate / 16000) (i + 1) ∧
    (downsampleTo16k input rate)[i]? =
      some (((input.drop (posF input.length (rate / 16000) i)).take
          (posF input.length (rate / 16000) (i + 1) -
            posF input.length (rate / 16000) i)).sum /
        ((posF input.length (rate / 16000) (i + 1) -
            posF input.length (rate / 16000) i : ℕ) : ℚ)) := by
  have hq : 1 < rate / 16000 := by
    rw [lt_div_iff₀ (by norm_num : (0 : ℚ) < 16000)]
    linarith
  have hpos := posF_lt input.length (rate / 16000) hq i hi
  refine ⟨hpos, ?_⟩
  unfold downsampleTo16k
  rw [if_neg (ne_of_gt h), if_neg (not_lt.mpr (le_of_lt h))]
  have hg := dsGo_getElem input (rate / 16000)
    ⌊(input.length : ℚ) / (rate / 16000)⌋₊ 0 i hi
  rw [posF_zero] at hg
  simp only [Nat.zero_add] at hg
  rw [hg]
  unfold dsStep
  rw [if_pos (Nat.sub_pos_of_lt hpos)]

theorem posF_natCast (len k i : ℕ) (h : i * k ≤ len) :
    posF len (k : ℚ) i = i * k := by
  rw [posF_eq_min]
  have hfl : ⌊(i : ℚ) * (k : ℚ)⌋₊ = i * k := by
    rw [← Nat.cast_mul, Nat.floor_natCast]
  rw [hfl]
  omega

/-- C4: above 16 kHz the resampler block-averages: the output length is
`floor(inputLength / ratio)`; for an integer ratio `k` the element at
index `i` is the arithmetic mean of the window `input[i*k .. (i+1)*k)`;
and `[1,1,1,0,0,0]` at 48 kHz yields `[1, 0]`. -/
theorem downsample_block_average (input : List ℚ) (rate : ℚ)
    (h : 16000 < rate) :
    (downsampleTo16k input rate).length =
      ⌊(input.length : ℚ) / (rate / 16000)⌋₊ ∧
    (∀ k : ℕ, rate = 16000 * (k : ℚ) → ∀ i : ℕ, i < input.length / k →
      (downsampleTo16k input rate)[i]? =
        some (((input.drop (i * k)).take k).sum / (k : ℚ))) ∧
    downsampleTo16k [1, 1, 1, 0, 0, 0] 48000 = [1, 0] := by
  have hne : rate ≠ 16000 := ne_of_gt h
  have hnl : ¬ rate < 16000 := not_lt.mpr (le_of_lt h)
  refine ⟨?_, ?_, ?_⟩
  · unfold downsampleTo16k
    rw [if_neg hne, if_neg hnl, dsGo_length]
  · intro k hk i hi
    have hk1 : (1 : ℚ) < (k : ℚ) := by
      rw [hk] at h
      nlinarith
    have hk0 : 0 < k := by exact_mod_cast lt_trans one_pos hk1
    have hq : rate / 16000 = (k : ℚ) := by
      rw [hk]
      field_simp
    have hik : (i + 1) * k ≤ input.length :=
      (Nat.le_div_iff_mul_le hk0).mp hi
    have hik0 : i * k ≤ input.length := by
      have hm : i * k ≤ (i + 1) * k := Nat.mul_le_mul_right _ (by omega)
      omega
    have hlen : ⌊(input.length : ℚ) / (rate / 16000)⌋₊ = input.length / k := by
      rw [hq, Nat.floor_div_nat, Nat.floor_natCast]
    unfold downsampleTo16k
    rw [if_neg hne, if_neg hnl]
    have hg := dsGo_getElem input (rate / 16000)
      ⌊(input.length : ℚ) / (rate / 16000)⌋₊ 0 i (by rw [hlen]; exact hi)
    rw [posF_zero] at hg
    simp only [Nat.zero_add] at hg
    rw [hg]
    unfold dsStep
    rw [hq, posF_natCast input.length k i hik0,
      posF_natCast input.length k (i + 1) hik]
    have hsub : (i + 1) * k - i * k = k := by
      have hx : (i + 1) * k = i * k + k := by ring
      omega
    rw [hsub, if_pos hk0]
  · norm_num [downsampleTo16k, dsGo]

/-- Witness for C4: at 48 kHz (ratio 3) element 0 is the mean of the first
window of three samples. -/
theorem downsample_block_average_witness :
    (downsampleTo16k [1, 1, 1, 0, 0, 0] 48000)[0]? =
      some (((([1, 1, 1, 0, 0, 0] : List ℚ).drop (0 * 3)).take 3).sum /
        ((3 : ℕ) : ℚ)) :=
  (downsample_block_average [1, 1, 1, 0, 0, 0] 48000 (by norm_num)).2.1 3
    (by norm_num) 0 (by norm_num)

/-- Witness for C9: at 48 kHz the first averaging window of
`[1,1,1,0,0,0]` is non-empty and element 0 is its average. -/
theorem downsample_window_nonempty_witness :
    posF ([1, 1, 1, 0, 0, 0] : List ℚ).length (48000 / 16000) 0 <
      posF ([1, 1, 1, 0, 0, 0] : List ℚ).length (48000 / 16000) 1 ∧
    (downsampleTo16k [1, 1, 1, 0, 0, 0] 48000)[0]? =
      some (((([1, 1, 1, 0, 0, 0] : List ℚ).drop
          (posF ([1, 1, 1, 0, 0, 0] : List ℚ).length (48000 / 16000) 0)).take
          (posF ([1, 1, 1, 0, 0, 0] : List ℚ).length (48000 / 16000) 1 -
            posF ([1, 1, 1, 0, 0, 0] : List ℚ).length (48000 / 16000) 0)).sum /
        ((posF ([1, 1, 1, 0, 0, 0] : List ℚ).length (48000 / 16000) 1 -
            posF ([1, 1, 1, 0, 0, 0] : List ℚ).length (48000 / 16000) 0 : ℕ) :
          ℚ)) :=
  downsample_window_nonempty [1, 1, 1, 0, 0, 0] 48000 (by norm_num) 0
    (by norm_num)

/-! ## Insertion history (src/domain/insertion-history.ts) -/

inductive InsertionStatus
  | success
  | fallback
  | failure
deriving DecidableEq

structure InsertionRecord where
  text : List Char
  status : InsertionStatus
deriving DecidableEq

/-- Embedding of `appendInsertionRecord`; the source's default argument
`limit = 3` is passed explicitly by every caller of this embedding. -/
def appendInsertionRecord (current : List InsertionRecord)
    (next : InsertionRecord) (limit : ℕ) : List InsertionRecord :=
  (next :: current).take limit

/-- C5: with the default limit 3 the history is `r` prepended to the
current list, truncated to 3: never longer than 3, most-recent-first with
head `r`, retaining the existing entries in order, and inserting A,B,C,D
into an empty history yields D,C,B. -/
theorem appendInsertionRecord_ring (current : List InsertionRecord)
    (r : InsertionRecord) (h : current.length ≤ 3) :
    appendInsertionRecord current r 3 = (r :: current).take 3 ∧
    (appendInsertionRecord current r 3).length ≤ 3 ∧
    (appendInsertionRecord current r 3).head? = some r ∧
    appendInsertionRecord current r 3 = r :: current.take 2 ∧
    ∀ A B C D : InsertionRecord,
      appendInsertionRecord (appendInsertionRecord (appendInsertionRecord
        (appendInsertionRecord [] A 3) B 3) C 3) D 3 = [D, C, B] := by
  refine ⟨rfl, ?_, rfl, rfl, ?_⟩
  · simp only [appendInsertionRecord, List.length_take, List.length_cons]
    omega
  · intro A B C D
    rfl

/-- Witness for C5 on a concrete one-element history. -/
theorem appendInsertionRecord_ring_witness :
    appendInsertionRecord [⟨['b'], InsertionStatus.fallback⟩]
        ⟨['a'], InsertionStatus.success⟩ 3 =
      ⟨['a'], InsertionStatus.success⟩ ::
        ([⟨['b'], InsertionStatus.fallback⟩] :
          List InsertionRecord).take 2 :=
  (appendInsertionRecord_ring [⟨['b'], InsertionStatus.fallback⟩]
    ⟨['a'], InsertionStatus.success⟩ (by decide)).2.2.2.1

/-! ## Settings (src/domain/settings.ts)

Strings are modelled as character lists, JavaScript numbers as rationals.
In `Partial<AppSettings>` every field may also be `undefined`, modelled by
an outer `Option`; the nullable fields `modelPath` and `microphoneId` keep
their inner `Option` for `null`. -/

inductive ModelProfile
  | balanced
  | fast
deriving DecidableEq

inductive WhisperBackendPreference
  | auto
  | cpu
  | cuda
deriving DecidableEq

def CHUNK_DURATION_MIN_MS : ℚ := 500
def CHUNK_DURATION_MAX_MS : ℚ := 4000
def PARTIAL_CADENCE_MIN_MS : ℚ := 300
def PARTIAL_CADENCE_MAX_MS : ℚ := 2500

def defaultChunkDurationMsForProfile (profile : ModelProfile) : ℚ :=
  match profile with
  | ModelProfile.fast => 1000
  | ModelProfile.balanced => 2000

def defaultPartialCadenceMsForProfile (profile : ModelProfile) : ℚ :=
  match profile with
  | ModelProfile.fast => 900
  | ModelProfile.balanced => 1400

/-- JavaScript Math.round: round half towards positive infinity. -/
def jsRound (x : ℚ) : ℤ := ⌊x + 1 / 2⌋

def effectiveChunkDurationMs (profile : ModelProfile) (value : Option ℚ) :
    ℚ :=
  match value with
  | none => defaultChunkDurationMsForProfile profile
  | some v =>
      max CHUNK_DURATION_MIN_MS (min CHUNK_DURATION_MAX_MS ((jsRound v : ℤ) : ℚ))

def effectivePartialCadenceMs (profile : ModelProfile) (value : Option ℚ) :
    ℚ :=
  match value with
  | none => defaultPartialCadenceMsForProfile profile
  | some v =>
      max PARTIAL_CADENCE_MIN_MS (min PARTIAL_CADENCE_MAX_MS ((jsRound v : ℤ) : ℚ))

/-- JavaScript String.prototype.trim on strings as character lists. -/
def jsTrim (s : List Char) : List Char :=
  (((s.dropWhile Char.isWhitespace).reverse).dropWhile Char.isWhitespace).reverse

structure AppSettings where
  hotkey : List Char
  mode : DictationMode
  language : List Char
  modelProfile : ModelProfile
  modelPath : Option (List Char)
  microphoneId : Option (List Char)
  micSensitivityPercent : ℚ
  chunkDurationMs : ℚ
  partialCadenceMs : ℚ
  whisperBackendPreference : WhisperBackendPreference
  clipboardFallback : Bool
  launchAtStartup : Bool
deriving DecidableEq

structure PartialAppSettings where
  hotkey : Option (List Char)
  mode : Option DictationMode
  language : Option (List Char)
  modelProfile : Option ModelProfile
  modelPath : Option (Option (List Char))
  microphoneId : Option (Option (List Char))
  micSensitivityPercent : Option ℚ
  chunkDurationMs : Option ℚ
  partialCadenceMs : Option ℚ
  whisperBackendPreference : Option WhisperBackendPreference
  clipboardFallback : Option Bool
  launchAtStartup : Option Bool

/-- The literal string constant en of the source's language field. -/
def enLang : List Char := ['e', 'n']

def DEFAULT_SETTINGS : AppSettings where
  hotkey := ['C', 't', 'r', 'l', 'O', 'r', 'C', 'm', 'd', '+',
    'S', 'h', 'i', 'f', 't', '+', 'U']
  mode := push_to_toggle
  language := enLang
  modelProfile := ModelProfile.balanced
  modelPath := none
  microphoneId := none
  micSensitivityPercent := 170
  chunkDurationMs := 2000
  partialCadenceMs := 1400
  whisperBackendPreference := WhisperBackendPreference.auto
  clipboardFallback := true
  launchAtStartup := false

/-- Embedding of `normalizeSettings`.  In the source `input.modelPath ??
DEFAULT_SETTINGS.modelPath` maps both `undefined` and `null` to the default
`null`; `input.hotkey?.trim() || default` takes the default when the field
is `undefined` or trims to the empty (falsy) string. -/
def normalizeSettings (input : PartialAppSettings) : AppSettings where
  hotkey :=
    match input.hotkey with
    | none => DEFAULT_SETTINGS.hotkey
    | some s => if jsTrim s = [] then DEFAULT_SETTINGS.hotkey else jsTrim s
  mode := input.mode.getD DEFAULT_SETTINGS.mode
  language := enLang
  modelProfile := input.modelProfile.getD DEFAULT_SETTINGS.modelProfile
  modelPath :=
    match input.modelPath with
    | some (some s) => some s
    | _ => none
  microphoneId :=
    match input.microphoneId with
    | some (some s) => some s
    | _ => none
  micSensitivityPercent :=
    match input.micSensitivityPercent with
    | none => DEFAULT_SETTINGS.micSensitivityPercent
    | some x => max 50 (min 300 x)
  chunkDurationMs :=
    effectiveChunkDurationMs (input.modelProfile.getD DEFAULT_SETTINGS.modelProfile)
      input.chunkDurationMs
  partialCadenceMs :=
    effectivePartialCadenceMs (input.modelProfile.getD DEFAULT_SETTINGS.modelProfile)
      input.partialCadenceMs
  whisperBackendPreference :=
    input.whisperBackendPreference.getD DEFAULT_SETTINGS.whisperBackendPreference
  clipboardFallback := input.clipboardFallback.getD DEFAULT_SETTINGS.clipboardFallback
  launchAtStartup := input.launchAtStartup.getD DEFAULT_SETTINGS.launchAtStartup

/-- A full settings object seen again as a partial one (in TypeScript an
`AppSettings` is a `Partial<AppSettings>` with every field present). -/
def settingsToPartial (s : AppSettings) : PartialAppSettings where
  hotkey := some s.hotkey
  mode := some s.mode
  language := some s.language
  modelProfile := some s.modelProfile
  modelPath := some s.modelPath
  microphoneId := some s.microphoneId
  micSensitivityPercent := some s.micSensitivityPercent
  chunkDurationMs := some s.chunkDurationMs
  partialCadenceMs := some s.partialCadenceMs
  whisperBackendPreference := some s.whisperBackendPreference
  clipboardFallback := some s.clipboardFallback
  launchAtStartup := some s.launchAtStartup

theorem dropWhile_dropWhile {α : Type} (p : α → Bool) (l : List α) :
    (l.dropWhile p).dropWhile p = l.dropWhile p := by
  induction l with
  | nil => rfl
  | cons a as ih =>
      by_cases hp : p a
      · simp [List.dropWhile_cons, hp, ih]
      · simp [List.dropWhile_cons, hp]

theorem head?_dropWhile_not {α : Type} (p : α → Bool) (l : List α) :
    ∀ a, (l.dropWhile p).head? = some a → p a = false := by
  induction l with
  | nil => intro a h; simp at h
  | cons b bs ih =>
      intro a h
      by_cases hp : p b
      · rw [List.dropWhile_cons, if_pos hp] at h
        exact ih a h
      · rw [List.dropWhile_cons, if_neg hp] at h
        simp only [List.head?_cons, Option.some.injEq] at h
        subst h
        exact Bool.not_eq_true _ |>.mp hp

theorem dropWhile_eq_self_of_head {α : Type} (p : α → Bool) (l : List α)
    (h : ∀ a, l.head? = some a → p a = false) : l.dropWhile p = l := by
  cases l with
  | nil => rfl
  | cons a as =>
      have ha := h a rfl
      simp [List.dropWhile_cons, ha]

theorem prefix_head?_eq {α : Type} (l1 l2 : List α) (h : l1 <+: l2)
    (hne : l1 ≠ []) : l1.head? = l2.head? := by
  obtain ⟨r, hr⟩ := h
  subst hr
  cases l1 with
  | nil => exact absurd rfl hne
  | cons a as => rfl

theorem jsTrim_prefix_dropWhile (s : List Char) :
    jsTrim s <+: s.dropWhile Char.isWhitespace := by
  unfold jsTrim
  have h1 : ((s.dropWhile Char.isWhitespace).reverse).dropWhile Char.isWhitespace
      <:+ (s.dropWhile Char.isWhitespace).reverse := List.dropWhile_suffix _
  have h2 := List.reverse_prefix.mpr h1
  rwa [List.reverse_reverse] at h2

theorem jsTrim_head (s : List Char) :
    ∀ a, (jsTrim s).head? = some a → Char.isWhitespace a = false := by
  intro a h
  have hne : jsTrim s ≠ [] := by
    intro hE
    rw [hE] at h
    simp at h
  have hh := prefix_head?_eq _ _ (jsTrim_prefix_dropWhile s) hne
  rw [h] at hh
  exact head?_dropWhile_not _ s a hh.symm

theorem jsTrim_idem (s : List Char) : jsTrim (jsTrim s) = jsTrim s := by
  have hA : (jsTrim s).dropWhile Char.isWhitespace = jsTrim s :=
    dropWhile_eq_self_of_head _ _ (jsTrim_head s)
  have hrev : (jsTrim s).reverse =
      ((s.dropWhile Char.isWhitespace).reverse).dropWhile Char.isWhitespace := by
    unfold jsTrim
    rw [List.reverse_reverse]
  calc jsTrim (jsTrim s)
      = (((jsTrim s).dropWhile Char.isWhitespace).reverse.dropWhile
          Char.isWhitespace).reverse := rfl
    _ = ((jsTrim s).reverse.dropWhile Char.isWhitespace).reverse := by rw [hA]
    _ = ((((s.dropWhile Char.isWhitespace).reverse).dropWhile
          Char.isWhitespace).dropWhile Char.isWhitespace).reverse := by rw [hrev]
    _ = (((s.dropWhile Char.isWhitespace).reverse).dropWhile
          Char.isWhitespace).reverse := by rw [dropWhile_dropWhile]
    _ = jsTrim s := rfl

theorem max_min_clamp_idem {α : Type} [LinearOrder α] (lo hi x : α)
    (h : lo ≤ hi) :
    max lo (min hi (max lo (min hi x))) = max lo (min hi x) := by
  have h1 : lo ≤ max lo (min hi x) := le_max_left _ _
  have h2 : max lo (min hi x) ≤ hi := max_le h (min_le_left _ _)
  rw [min_eq_right h2, max_eq_right h1]

theorem jsRound_intCast (m : ℤ) : jsRound ((m : ℚ)) = m := by
  unfold jsRound
  rw [Int.floor_int_add]
  norm_num

theorem chunk_clamp_cast (m : ℤ) :
    max CHUNK_DURATION_MIN_MS (min CHUNK_DURATION_MAX_MS ((m : ℚ))) =
      ((max 500 (min 4000 m) : ℤ) : ℚ) := by
  unfold CHUNK_DURATION_MIN_MS CHUNK_DURATION_MAX_MS
  push_cast
  rfl

theorem cadence_clamp_cast (m : ℤ) :
    max PARTIAL_CADENCE_MIN_MS (min PARTIAL_CADENCE_MAX_MS ((m : ℚ))) =
      ((max 300 (min 2500 m) : ℤ) : ℚ) := by
  unfold PARTIAL_CADENCE_MIN_MS PARTIAL_CADENCE_MAX_MS
  push_cast
  rfl

theorem effectiveChunkDurationMs_fix (profile : ModelProfile) (v : Option ℚ) :
    effectiveChunkDurationMs profile
        (some (effectiveChunkDurationMs profile v)) =
      effectiveChunkDurationMs profile v := by
  cases v with
  | none =>
      cases profile <;>
        norm_num [effectiveChunkDurationMs, defaultChunkDurationMsForProfile,
          jsRound, CHUNK_DURATION_MIN_MS, CHUNK_DURATION_MAX_MS,
          min_def, max_def]
  | some x =>
      simp only [effectiveChunkDurationMs, chunk_clamp_cast, jsRound_intCast]
      rw [max_min_clamp_idem 500 4000 (jsRound x) (by norm_num)]

theorem effectivePartialCadenceMs_fix (profile : ModelProfile) (v : Option ℚ) :
    effectivePartialCadenceMs profile
        (some (effectivePartialCadenceMs profile v)) =
      effectivePartialCadenceMs profile v := by
  cases v with
  | none =>
      cases profile <;>
        norm_num [effectivePartialCadenceMs, defaultPartialCadenceMsForProfile,
          jsRound, PARTIAL_CADENCE_MIN_MS, PARTIAL_CADENCE_MAX_MS,
          min_def, max_def]
  | some x =>
      simp only [effectivePartialCadenceMs, cadence_clamp_cast, jsRound_intCast]
      rw [max_min_clamp_idem 300 2500 (jsRound x) (by norm_num)]

theorem effectiveChunkDurationMs_clamped (profile : ModelProfile)
    (v : Option ℚ) :
    max CHUNK_DURATION_MIN_MS
        (min CHUNK_DURATION_MAX_MS (effectiveChunkDurationMs profile v)) =
      effectiveChunkDurationMs profile v := by
  cases v with
  | none =>
      cases profile <;>
        norm_num [effectiveChunkDurationMs, defaultChunkDurationMsForProfile,
          CHUNK_DURATION_MIN_MS, CHUNK_DURATION_MAX_MS, min_def, max_def]
  | some x =>
      exact max_min_clamp_idem _ _ _
        (by norm_num [CHUNK_DURATION_MIN_MS, CHUNK_DURATION_MAX_MS])

theorem effectivePartialCadenceMs_clamped (profile : ModelProfile)
    (v : Option ℚ) :
    max PARTIAL_CADENCE_MIN_MS
        (min PARTIAL_CADENCE_MAX_MS (effectivePartialCadenceMs profile v)) =
      effectivePartialCadenceMs profile v := by
  cases v with
  | none =>
      cases profile <;>
        norm_num [effectivePartialCadenceMs, defaultPartialCadenceMsForProfile,
          PARTIAL_CADENCE_MIN_MS, PARTIAL_CADENCE_MAX_MS, min_def, max_def]
  | some x =>
      exact max_min_clamp_idem _ _ _
        (by norm_num [PARTIAL_CADENCE_MIN_MS, PARTIAL_CADENCE_MAX_MS])

attribute [ext] AppSettings

theorem normalizeSettings_hotkey_spec (p : PartialAppSettings) :
    jsTrim ((normalizeSettings p).hotkey) = (normalizeSettings p).hotkey ∧
    (normalizeSettings p).hotkey ≠ [] := by
  have hdef1 : jsTrim DEFAULT_SETTINGS.hotkey = DEFAULT_SETTINGS.hotkey := by
    decide
  have hdef2 : DEFAULT_SETTINGS.hotkey ≠ [] := by decide
  simp only [normalizeSettings]
  cases hp : p.hotkey with
  | none => exact ⟨hdef1, hdef2⟩
  | some s =>
      dsimp only
      by_cases hE : jsTrim s = []
      · rw [if_pos hE]
        exact ⟨hdef1, hdef2⟩
      · rw [if_neg hE]
        exact ⟨jsTrim_idem s, hE⟩

theorem normalizeSettings_mic_clamped (p : PartialAppSettings) :
    max 50 (min 300 ((normalizeSettings p).micSensitivityPercent)) =
      (normalizeSettings p).micSensitivityPercent := by
  simp only [normalizeSettings]
  cases hp : p.micSensitivityPercent with
  | none => norm_num [DEFAULT_SETTINGS, min_def, max_def]
  | some x => exact max_min_clamp_idem 50 300 x (by norm_num)

theorem normalizeSettings_chunk_fix (p : PartialAppSettings) :
    effectiveChunkDurationMs ((normalizeSettings p).modelProfile)
        (some ((normalizeSettings p).chunkDurationMs)) =
      (normalizeSettings p).chunkDurationMs := by
  simp only [normalizeSettings]
  exact effectiveChunkDurationMs_fix _ _

theorem normalizeSettings_cadence_fix (p : PartialAppSettings) :
    effectivePartialCadenceMs ((normalizeSettings p).modelProfile)
        (some ((normalizeSettings p).partialCadenceMs)) =
      (normalizeSettings p).partialCadenceMs := by
  simp only [normalizeSettings]
  exact effectivePartialCadenceMs_fix _ _

theorem normalizeSettings_toPartial (s : AppSettings)
    (ha1 : jsTrim s.hotkey = s.hotkey) (ha2 : s.hotkey ≠ [])
    (hb : s.language = enLang)
    (hc : max 50 (min 300 s.micSensitivityPercent) = s.micSensitivityPercent)
    (hd : effectiveChunkDurationMs s.modelProfile (some s.chunkDurationMs) =
      s.chunkDurationMs)
    (he : effectivePartialCadenceMs s.modelProfile (some s.partialCadenceMs) =
      s.partialCadenceMs) :
    normalizeSettings (settingsToPartial s) = s := by
  apply AppSettings.ext
  · simp only [normalizeSettings, settingsToPartial]
    rw [ha1, if_neg ha2]
  · simp [normalizeSettings, settingsToPartial]
  · exact hb.symm
  · simp [normalizeSettings, settingsToPartial]
  · simp only [normalizeSettings, settingsToPartial]
    cases s.modelPath <;> rfl
  · simp only [normalizeSettings, settingsToPartial]
    cases s.microphoneId <;> rfl
  · simp only [normalizeSettings, settingsToPartial]
    exact hc
  · simp only [normalizeSettings, settingsToPartial, Option.getD_some]
    exact hd
  · simp only [normalizeSettings, settingsToPartial, Option.getD_some]
    exact he
  · simp [normalizeSettings, settingsToPartial]
  · simp [normalizeSettings, settingsToPartial]
  · simp [normalizeSettings, settingsToPartial]

/-- C10: `normalizeSettings` is idempotent, and every numeric field of a
normalized settings object, and the trimmed hotkey, is a fixed point of its
own normalization (micSensitivityPercent clamped to [50, 300],
chunkDurationMs to [500, 4000], partialCadenceMs to [300, 2500]). -/
theorem normalizeSettings_idempotent (p : PartialAppSettings) :
    normalizeSettings (settingsToPartial (normalizeSettings p)) =
      normalizeSettings p ∧
    jsTrim ((normalizeSettings p).hotkey) = (normalizeSettings p).hotkey ∧
    max 50 (min 300 ((normalizeSettings p).micSensitivityPercent)) =
      (normalizeSettings p).micSensitivityPercent ∧
    max CHUNK_DURATION_MIN_MS
        (min CHUNK_DURATION_MAX_MS ((normalizeSettings p).chunkDurationMs)) =
      (normalizeSettings p).chunkDurationMs ∧
    max PARTIAL_CADENCE_MIN_MS
        (min PARTIAL_CADENCE_MAX_MS ((normalizeSettings p).partialCadenceMs)) =
      (normalizeSettings p).partialCadenceMs := by
  obtain ⟨h1, h2⟩ := normalizeSettings_hotkey_spec p
  refine ⟨?_, h1, normalizeSettings_mic_clamped p, ?_, ?_⟩
  · exact normalizeSettings_toPartial _ h1 h2 rfl
      (normalizeSettings_mic_clamped p) (normalizeSettings_chunk_fix p)
      (normalizeSettings_cadence_fix p)
  · simp only [normalizeSettings]
    exact effectiveChunkDurationMs_clamped _ _
  · simp only [normalizeSettings]
    exact effectivePartialCadenceMs_clamped _ _
